import Mathlib

/-!
Verification of the UTF-8 / UTF-16 codec core of the `encode_unicode` crate
(src/traits.rs, src/utf8_char.rs).  Machine integers are modelled as `Nat`;
wherever a Rust operation can wrap (`u8`/`u16`/`u32` shifts), the truncation
is made explicit with a mask.  Fallible operations return `Except`.
-/

set_option maxHeartbeats 1000000
set_option maxRecDepth 10000

namespace EncodeUnicode

/-! ## Error types

Declared in the crate's `errors` module; the variants and their payloads are
exactly those used by src/traits.rs and src/utf8_char.rs. -/

inductive InvalidUtf8FirstByte where
  | ContinuationByte
  | TooLongSeqence
deriving DecidableEq, Repr

inductive InvalidUtf8 where
  | FirstByte (e : InvalidUtf8FirstByte)
  | NotAContinuationByte (i : Nat)
  | OverLong
deriving DecidableEq, Repr

inductive InvalidCodePoint where
  | Utf16Reserved
  | TooHigh
deriving DecidableEq, Repr

inductive InvalidUtf8Slice where
  | TooShort (n : Nat)
  | Utf8 (e : InvalidUtf8)
  | CodePoint (e : InvalidCodePoint)
deriving DecidableEq, Repr

inductive InvalidUtf8Array where
  | Utf8 (e : InvalidUtf8)
  | CodePoint (e : InvalidCodePoint)
deriving DecidableEq, Repr

inductive InvalidUtf16Slice where
  | EmptySlice
  | FirstLowSurrogate
  | MissingSecond
  | SecondNotLowSurrogate
deriving DecidableEq, Repr

inductive InvalidUtf16Tuple where
  | MissingSecond
  | SuperfluousSecond
  | InvalidSecond
  | FirstIsTrailingSurrogate
deriving DecidableEq, Repr

/-! ## Bit-level helpers -/

/-- Bit length of `x` (index of the highest set bit, plus one), by structural
recursion on a fuel argument that must be at least the bit width of `x`. -/
def bitLen : Nat → Nat → Nat
  | 0, _ => 0
  | fuel + 1, x => if x = 0 then 0 else bitLen fuel (x / 2) + 1

/-- `u8::leading_zeros`. -/
def leadingZeros8 (x : Nat) : Nat := 8 - bitLen 8 x

/-- `u16::leading_zeros`. -/
def leadingZeros16 (x : Nat) : Nat := 16 - bitLen 16 x

/-- Bitwise complement on 8 bits (`u8` `Not`). -/
def not8 (x : Nat) : Nat := x ^^^ 0xff

/-- Bitwise complement on 16 bits (`u16` `Not`). -/
def not16 (x : Nat) : Nat := x ^^^ 0xffff

/-- Bitwise complement on 32 bits (`u32` `Not`). -/
def not32 (x : Nat) : Nat := x ^^^ 0xffffffff

/-! ## Byte / unit classifier (trait impls `U8UtfExt`, `U16UtfExt`) -/

/-- `U8UtfExt::extra_utf8_bytes` for `u8` (src/traits.rs lines 38–46):
match on `self.not().leading_zeros()`. -/
def extra_utf8_bytes (b : Nat) : Except InvalidUtf8FirstByte Nat :=
  match leadingZeros8 (not8 b) with
  | 0 => .ok 0
  | 1 => .error .ContinuationByte
  | n => if n < 5 then .ok (n - 1) else .error .TooLongSeqence

/-- `U8UtfExt::extra_utf8_bytes_unchecked` (src/traits.rs lines 47–49):
`self.not().leading_zeros().saturating_sub(1)`; `Nat` subtraction saturates. -/
def extra_utf8_bytes_unchecked (b : Nat) : Nat := leadingZeros8 (not8 b) - 1

/-- `U16UtfExt::utf16_needs_extra_unit` (src/traits.rs lines 67–72), match
arms in source order. -/
def utf16_needs_extra_unit (u : Nat) : Option Bool :=
  if 0xdc00 ≤ u ∧ u ≤ 0xdfff then none
  else if 0xd800 ≤ u ∧ u ≤ 0xdbff then some true
  else some false

/-! ## Overlong-sequence check -/

/-- `overlong` (src/traits.rs lines 380–384).  `second << 2` is a `u8` shift
(wraps, hence `&&& 0xff`); `both` is a `u16`, so the second shift is truncated
to 16 bits.  The shift amount `1 + leading_zeros(!both)` never reaches 16
because the two low bits of `both` are always zero. -/
def overlong (first second : Nat) : Bool :=
  let both := (first <<< 8) ||| ((second <<< 2) &&& 0xff)
  let both2 := (both <<< (1 + leadingZeros16 (not16 both))) &&& 0xffff
  5 ≤ leadingZeros16 both2

/-! ## Scalar validation -/

/-- `CharExt::from_u32_detailed` (src/traits.rs lines 363–372); the second
arm is `0x110000 ..= u32::MAX`. -/
def from_u32_detailed (c : Nat) : Except InvalidCodePoint Nat :=
  if 0xd800 ≤ c ∧ c ≤ 0xdfff then .error .Utf16Reserved
  else if 0x110000 ≤ c ∧ c ≤ 0xffffffff then .error .TooHigh
  else .ok c

/-- A legal Unicode scalar value: the invariant of Rust `char`. -/
def isScalar (c : Nat) : Prop := c < 0x110000 ∧ ¬(0xd800 ≤ c ∧ c ≤ 0xdfff)

instance (c : Nat) : Decidable (isScalar c) := by unfold isScalar; infer_instance

/-! ## UTF-8 encode -/

/-- Rust std `char::len_utf8`, used by `CharExt::to_utf8_array`. -/
def len_utf8 (c : Nat) : Nat :=
  if c < 0x80 then 1 else if c < 0x800 then 2 else if c < 0x10000 then 3 else 4

/-- Little-endian byte decomposition of a `u32`, modelling
`mem::transmute::<u32, [u8; 4]>(u32::from_le(x))`. -/
def u32_le_bytes (x : Nat) : List Nat :=
  [x &&& 0xff, (x >>> 8) &&& 0xff, (x >>> 16) &&& 0xff, (x >>> 24) &&& 0xff]

/-- `CharExt::to_utf8_array` (src/traits.rs lines 190–212).  Every
intermediate `u32` value stays below `2^32` (the scalar is at most `0x10ffff`
and each byte of `parts` holds six data bits), so plain `Nat` arithmetic is
faithful; the sequential mutations of `parts` and `c` become `let` bindings. -/
def to_utf8_array (c : Nat) : List Nat × Nat :=
  let len := len_utf8 c
  if len = 1 then ([c, 0, 0, 0], 1)
  else
    let parts1 := c &&& 0x3f
    let c1 := c >>> 6
    let parts2 := (parts1 <<< 8) ||| (c1 &&& 0x3f)
    let c2 := c1 >>> 6
    let parts3 := (parts2 <<< 8) ||| (c2 &&& 0x3f)
    let c3 := c2 >>> 6
    let parts4 := (parts3 <<< 8) ||| (c3 &&& 0x3f)
    let parts5 := parts4 ||| 0x80808080
    let parts6 := parts5 >>> (8 * (4 - len))
    let parts7 := parts6 ||| ((0xff00 >>> len) &&& 0xff)
    let parts8 := parts7 &&& not32 (1 <<< (7 - len))
    (u32_le_bytes parts8, len)

/-! ## UTF-8 decode -/

/-- `CharExt::from_utf8_exact_slice_unchecked` (src/traits.rs lines 267–277).
Rust panics on an empty slice; every caller passes a nonempty slice, and the
empty case here yields 0.  `0xff >> 2+src.len()-1` parses as
`0xff >> (2 + src.len() - 1)`. -/
def from_utf8_exact_slice_unchecked (src : List Nat) : Nat :=
  if src.length = 1 then src.headD 0
  else
    (src.drop 1).foldl (fun c b => (c <<< 6) ||| (b &&& 0x3f))
      (src.headD 0 &&& (0xff >>> (2 + src.length - 1)))

/-- The continuation-byte scan `for (i, &b) in src.iter().enumerate().skip(1)`
shared by `from_utf8_slice` and `from_utf8_array`: walks the bytes after the
first one and returns the index (in the original slice) of the first byte
outside `0x80..=0xbf`. -/
def findNonCont (tail : List Nat) (i : Nat) : Option Nat :=
  match tail with
  | [] => none
  | b :: rest => if b < 0x80 ∨ 0xbf < b then some i else findNonCont rest (i + 1)

/-- `CharExt::from_utf8_slice` (src/traits.rs lines 216–237). -/
def from_utf8_slice (src : List Nat) : Except InvalidUtf8Slice (Nat × Nat) :=
  match src.head? with
  | none => .error (.TooShort 1)
  | some first =>
    match extra_utf8_bytes first with
    | .error e => .error (.Utf8 (.FirstByte e))
    | .ok extra =>
      if extra = 0 then .ok (first, 1)
      else if src.length ≤ extra then .error (.TooShort (extra + 1))
      else
        let src2 := src.take (1 + extra)
        match findNonCont (src2.drop 1) 1 with
        | some i => .error (.Utf8 (.NotAContinuationByte i))
        | none =>
          if overlong (src2.getD 0 0) (src2.getD 1 0) then .error (.Utf8 .OverLong)
          else
            match from_u32_detailed (from_utf8_exact_slice_unchecked src2) with
            | .ok c => .ok (c, src2.length)
            | .error e => .error (.CodePoint e)

/-- `CharExt::from_utf8_array` (src/traits.rs lines 240–259): the same
validation pipeline on a fixed 4-byte array with derived length. -/
def from_utf8_array (utf8 : List Nat) : Except InvalidUtf8Array Nat :=
  match extra_utf8_bytes (utf8.getD 0 0) with
  | .error err => .error (.Utf8 (.FirstByte err))
  | .ok 0 => .ok (utf8.getD 0 0)
  | .ok l =>
    let len := l + 1
    match findNonCont ((utf8.take len).drop 1) 1 with
    | some i => .error (.Utf8 (.NotAContinuationByte i))
    | none =>
      if overlong (utf8.getD 0 0) (utf8.getD 1 0) then .error (.Utf8 .OverLong)
      else
        match from_u32_detailed (from_utf8_exact_slice_unchecked (utf8.take len)) with
        | .ok c => .ok c
        | .error e => .error (.CodePoint e)

/-! ## UTF-16 encode / decode -/

/-- `CharExt::to_utf16_tuple` (src/traits.rs lines 309–319).  For any valid
scalar both units fit in `u16`, so the `as u16` casts are the identity. -/
def to_utf16_tuple (c : Nat) : Nat × Option Nat :=
  if c ≤ 0xffff then (c, none)
  else
    let c2 := c - 0x10000
    (0xd800 + (c2 >>> 10), some (0xdc00 + (c2 &&& 0x3ff)))

/-- `CharExt::from_utf16_tuple_unchecked` (src/traits.rs lines 351–360).
Every caller passes either no second unit, or a first unit in
`0xd800..=0xdbff` with a second in `0xdc00..=0xdfff`, so the `u32`
subtractions cannot wrap. -/
def from_utf16_tuple_unchecked (utf16 : Nat × Option Nat) : Nat :=
  match utf16 with
  | (first, none) => first
  | (first, some second) => (((first - 0xd800) <<< 10) ||| (second - 0xdc00)) + 0x10000

/-- Result of `CharExt::from_utf16_tuple`: the source `match` ends in an
`unreachable!()` arm, modelled by the `unreachableReached` constructor. -/
inductive Utf16TupleResult where
  | ok (c : Nat)
  | err (e : InvalidUtf16Tuple)
  | unreachableReached
deriving DecidableEq, Repr

/-- `CharExt::from_utf16_tuple` (src/traits.rs lines 336–348).  The Rust
`match` arms are tested in source order; they are grouped here by whether the
second unit is present, which preserves the selected arm. -/
def from_utf16_tuple (utf16 : Nat × Option Nat) : Utf16TupleResult :=
  match utf16 with
  | (first, none) =>
    if first ≤ 0xd7ff then .ok (from_utf16_tuple_unchecked (first, none))
    else if 0xe000 ≤ first ∧ first ≤ 0xffff then .ok (from_utf16_tuple_unchecked (first, none))
    else if 0xdc00 ≤ first ∧ first ≤ 0xdfff then .err .MissingSecond
    else .unreachableReached
  | (first, some second) =>
    if 0xd800 ≤ first ∧ first ≤ 0xdbff then
      if 0xdc00 ≤ second ∧ second ≤ 0xdfff then
        .ok (from_utf16_tuple_unchecked (first, some second))
      else .err .InvalidSecond
    else if 0xdc00 ≤ first ∧ first ≤ 0xdfff then .err .FirstIsTrailingSurrogate
    else .err .SuperfluousSecond

/-- `CharExt::from_utf16_slice` (src/traits.rs lines 323–333). -/
def from_utf16_slice (src : List Nat) : Except InvalidUtf16Slice (Nat × Nat) :=
  match src.head? with
  | none => .error .EmptySlice
  | some first =>
    match utf16_needs_extra_unit first, src[1]? with
    | some false, _ => .ok (from_utf16_tuple_unchecked (first, none), 1)
    | some true, some second =>
      if 0xdc00 ≤ second ∧ second ≤ 0xdfff then
        .ok (from_utf16_tuple_unchecked (first, some second), 2)
      else .error .SecondNotLowSurrogate
    | some true, none => .error .MissingSecond
    | none, _ => .error .FirstLowSurrogate

/-- `CharExt::to_utf16_slice` (src/traits.rs lines 292–305).  The buffer is
threaded explicitly: the returned list is the final state of `dst`. -/
def to_utf16_slice (c : Nat) (dst : List Nat) : Option Nat × List Nat :=
  let ft := to_utf16_tuple c
  match dst.length, ft.2 with
  | 0, _ => (none, dst)
  | 1, some _ => (none, dst)
  | _, some second => (some 2, (dst.set 0 ft.1).set 1 second)
  | _, none => (some 1, dst.set 0 ft.1)

/-! ## `Utf8Char` (src/utf8_char.rs) -/

/-- `Utf8Char`: a `[u8; 4]` (modelled as a list of four bytes). -/
structure Utf8Char where
  bytes : List Nat
deriving DecidableEq, Repr

/-- `Utf8Char::len` (src/utf8_char.rs lines 152–154). -/
def Utf8Char.len (u : Utf8Char) : Nat :=
  extra_utf8_bytes_unchecked (u.bytes.getD 0 0) + 1

/-- `impl From<char> for Utf8Char` (src/utf8_char.rs lines 57–61). -/
def Utf8Char.fromChar (c : Nat) : Utf8Char := ⟨(to_utf8_array c).1⟩

/-- `impl From<Utf8Char> for char` / `Utf8Char::to_char`
(src/utf8_char.rs lines 62–66). -/
def Utf8Char.to_char (u : Utf8Char) : Nat :=
  from_utf8_exact_slice_unchecked (u.bytes.take u.len)

/-- `impl Hash for Utf8Char` (src/utf8_char.rs lines 111–115) hashes
`self.to_char()`; modelled as the value handed to the hasher. -/
def Utf8Char.hashFeed (u : Utf8Char) : Nat := u.to_char

/-- `Utf8Char::from_slice_start` (src/utf8_char.rs lines 132–140): on success
the first `len` bytes of `src` (with `len ≤ src.length`) overwrite
`Utf8Char::default()`, i.e. `[0, 0, 0, 0]`. -/
def Utf8Char.from_slice_start (src : List Nat) :
    Except InvalidUtf8Slice (Utf8Char × Nat) :=
  match from_utf8_slice src with
  | .error e => .error e
  | .ok (_, len) => .ok (⟨src.take len ++ List.replicate (4 - len) 0⟩, len)

/-- A `u32` from little-endian bytes (`mem::transmute::<[u8; 4], u32>` on a
little-endian machine, composed with `u32::from_le`). -/
def u32_of_le_bytes (bs : List Nat) : Nat :=
  bs.getD 0 0 ||| (bs.getD 1 0 <<< 8) ||| (bs.getD 2 0 <<< 16) ||| (bs.getD 3 0 <<< 24)

/-- `Utf8Char::from_array` (src/utf8_char.rs lines 142–148): after
validation, the unused bytes are zeroed through a little-endian `u32` mask. -/
def Utf8Char.from_array (utf8 : List Nat) : Except InvalidUtf8Array Utf8Char :=
  match from_utf8_array utf8 with
  | .error e => .error e
  | .ok _ =>
    let len := (Utf8Char.mk utf8).len
    let mask := 0xffffffff >>> (8 * (4 - len))
    .ok ⟨u32_le_bytes (mask &&& u32_of_le_bytes utf8)⟩

/-- `Utf8Char::to_slice` (src/utf8_char.rs lines 165–174).  The copy loop
`dst.iter_mut().zip(self.bytes.iter())` writes `min dst.length 4` bytes; the
failure branch performs no write, so the buffer is returned unchanged. -/
def Utf8Char.to_slice (u : Utf8Char) (dst : List Nat) : Option Nat × List Nat :=
  if u.len ≤ dst.length then
    let m := min dst.length u.bytes.length
    (some u.len, u.bytes.take m ++ dst.drop m)
  else (none, dst)

/-- Lexicographic comparison of the two 4-byte arrays: the derived
`PartialOrd`/`Ord` of `Utf8Char` compares the `[u8; 4]` fields elementwise. -/
def cmpBytes : List Nat → List Nat → Ordering
  | [], [] => .eq
  | [], _ :: _ => .lt
  | _ :: _, [] => .gt
  | a :: xs, b :: ys =>
    match compare a b with
    | .eq => cmpBytes xs ys
    | o => o

/-! ## Arithmetic toolkit for the bit manipulations -/

theorem and63 (x : Nat) : x &&& 63 = x % 64 := by
  have h := Nat.and_pow_two_sub_one_eq_mod x 6
  norm_num at h; exact h

theorem and255 (x : Nat) : x &&& 255 = x % 256 := by
  have h := Nat.and_pow_two_sub_one_eq_mod x 8
  norm_num at h; exact h

theorem orOrOr (a b u v : Nat) : (a ||| u) ||| (b ||| v) = (a ||| b) ||| (u ||| v) := by
  apply Nat.eq_of_testBit_eq; intro i
  simp only [Nat.testBit_or]
  cases a.testBit i <;> cases b.testBit i <;> cases u.testBit i <;> cases v.testBit i <;> rfl

theorem mulOr (k x y : Nat) : 2 ^ k * x ||| 2 ^ k * y = 2 ^ k * (x ||| y) := by
  apply Nat.eq_of_testBit_eq; intro i
  simp only [Nat.mul_comm (2 ^ k), ← Nat.shiftLeft_eq, Nat.testBit_or, Nat.testBit_shiftLeft]
  cases (decide (i ≥ k)) <;> simp

theorem concatOr {k : Nat} (x y u v : Nat) (hu : u < 2 ^ k) (hv : v < 2 ^ k) :
    (2 ^ k * x + u) ||| (2 ^ k * y + v) = 2 ^ k * (x ||| y) + (u ||| v) := by
  rw [Nat.mul_add_lt_is_or hu, Nat.mul_add_lt_is_or hv, orOrOr, mulOr,
    ← Nat.mul_add_lt_is_or (Nat.or_lt_two_pow hu hv)]

theorem concatAnd {k : Nat} (x y u v : Nat) (hu : u < 2 ^ k) (hv : v < 2 ^ k) :
    (2 ^ k * x + u) &&& (2 ^ k * y + v) = 2 ^ k * (x &&& y) + (u &&& v) := by
  apply Nat.eq_of_testBit_eq; intro i
  rw [Nat.testBit_and, Nat.testBit_mul_pow_two_add _ hu, Nat.testBit_mul_pow_two_add _ hv,
    Nat.testBit_mul_pow_two_add _ (Nat.and_lt_two_pow u hv)]
  split <;> simp [Nat.testBit_and]

/-- `x * 256 ||| u = x * 256 + u` for a byte-sized `u`. -/
theorem orByte (x : Nat) {u : Nat} (hu : u < 256) : x * 256 ||| u = x * 256 + u := by
  have h := Nat.mul_add_lt_is_or (i := 8) (b := u) (by simpa using hu) x
  simpa [Nat.mul_comm] using h.symm

/-- `x <<< 6 ||| u = x * 64 + u` for a six-bit `u`. -/
theorem orSix (x : Nat) {u : Nat} (hu : u < 64) : (x <<< 6) ||| u = x * 64 + u := by
  have h := Nat.mul_add_lt_is_or (i := 6) (b := u) (by simpa using hu) x
  rw [Nat.shiftLeft_eq]
  norm_num
  simpa [Nat.mul_comm] using h.symm

/-- `x <<< 10 ||| u = x * 1024 + u` for a ten-bit `u`. -/
theorem orTen (x : Nat) {u : Nat} (hu : u < 1024) : (x <<< 10) ||| u = x * 1024 + u := by
  have h := Nat.mul_add_lt_is_or (i := 10) (b := u) (by simpa using hu) x
  rw [Nat.shiftLeft_eq]
  norm_num
  simpa [Nat.mul_comm] using h.symm

theorem orLow (x : Nat) {u v : Nat} (hu : u < 256) (hv : v < 256) :
    (x * 256 + u) ||| v = x * 256 + (u ||| v) := by
  have h := concatOr (k := 8) x 0 u v (by simpa using hu) (by simpa using hv)
  simpa [Nat.mul_comm] using h

theorem or0x80 {e : Nat} (he : e < 128) : e ||| 128 = 128 + e := by
  have h := Nat.mul_add_lt_is_or (i := 7) (b := e) (by simpa using he) 1
  simpa [Nat.or_comm] using h.symm

/-- Setting the `0x80` tag on all four 6-bit payload bytes at once. -/
theorem or80808080 {a b d e : Nat} (ha : a < 128) (hb : b < 128) (hd : d < 128) (he : e < 128) :
    (((a * 256 + b) * 256 + d) * 256 + e) ||| 0x80808080 =
      (((128 + a) * 256 + (128 + b)) * 256 + (128 + d)) * 256 + (128 + e) := by
  have h1 : ((a * 256 + b) * 256 + d) * 256 + e =
      2 ^ 8 * ((a * 256 + b) * 256 + d) + e := by ring
  have h2 : (0x80808080 : Nat) = 2 ^ 8 * 0x808080 + 128 := by norm_num
  rw [h1, h2, concatOr _ _ _ _ (by omega) (by norm_num)]
  have h3 : (a * 256 + b) * 256 + d = 2 ^ 8 * (a * 256 + b) + d := by ring
  have h4 : (0x808080 : Nat) = 2 ^ 8 * 0x8080 + 128 := by norm_num
  rw [h3, h4, concatOr _ _ _ _ (by omega) (by norm_num)]
  have h5 : a * 256 + b = 2 ^ 8 * a + b := by ring
  have h6 : (0x8080 : Nat) = 2 ^ 8 * 128 + 128 := by norm_num
  rw [h5, h6, concatOr _ _ _ _ (by omega) (by norm_num)]
  rw [Nat.or_comm a 128, ← Nat.mul_add_lt_is_or (by omega : a < 2 ^ 7) 1]
  rw [or0x80 hb, or0x80 hd, or0x80 he]
  ring

theorem orHdr2 {d : Nat} (hd : d < 32) : (128 + d) ||| 192 = 192 + d := by
  revert d; decide

theorem orHdr3 {d : Nat} (hd : d < 16) : (128 + d) ||| 224 = 224 + d := by
  revert d; decide

theorem orHdr4 {d : Nat} (hd : d < 8) : (128 + d) ||| 240 = 240 + d := by
  revert d; decide

theorem andMask2 {d : Nat} (hd : d < 32) : (192 + d) &&& 223 = 192 + d := by
  revert d; decide

theorem andMask3 {d : Nat} (hd : d < 16) : (224 + d) &&& 239 = 224 + d := by
  revert d; decide

theorem andMask4 {d : Nat} (hd : d < 8) : (240 + d) &&& 247 = 240 + d := by
  revert d; decide

/-- Stripping the UTF-8 header from a length-2 lead byte:
`first & (0xff >> 3)`. -/
theorem andHdrInv2 {d : Nat} (hd : d < 32) : (192 + d) &&& 31 = d := by
  revert d; decide

/-- Stripping the UTF-8 header from a length-3 lead byte. -/
theorem andHdrInv3 {d : Nat} (hd : d < 16) : (224 + d) &&& 15 = d := by
  revert d; decide

/-- Stripping the UTF-8 header from a length-4 lead byte. -/
theorem andHdrInv4 {d : Nat} (hd : d < 8) : (240 + d) &&& 7 = d := by
  revert d; decide

/-- Stripping the `0x80` tag from a continuation byte: `b & 0b0011_1111`. -/
theorem andCont {y : Nat} (hy : y < 64) : (128 + y) &&& 63 = y := by
  revert y; decide

/-- Masking with `!(1 << (7-len))`: the high 24 bits pass through, the low
byte meets the low byte of the mask. -/
theorem andMaskFull (x : Nat) {u m : Nat} (hx : x < 0x1000000) (hu : u < 256) (hm : m < 256) :
    (x * 256 + u) &&& (16777215 * 256 + m) = x * 256 + (u &&& m) := by
  have h := concatAnd (k := 8) x 16777215 u m (by simpa using hu) (by simpa using hm)
  rw [Nat.mul_comm (2 ^ 8), Nat.mul_comm (2 ^ 8), Nat.mul_comm (2 ^ 8)] at h
  norm_num at h
  rw [h]
  have hx24 : x &&& 16777215 = x := by
    have h2 := Nat.and_pow_two_sub_one_of_lt_two_pow (x := x) (n := 24) (by norm_num at hx ⊢; omega)
    norm_num at h2; exact h2
  rw [hx24]

theorem div65536 (x : Nat) {u v : Nat} (hu : u < 256) (hv : v < 256) :
    ((x * 256 + u) * 256 + v) / 65536 = x := by omega

theorem div256 (x : Nat) {u : Nat} (hu : u < 256) : (x * 256 + u) / 256 = x := by omega

theorem u32_le_bytes_eq (a b d e : Nat) (ha : a < 256) (hb : b < 256) (hd : d < 256)
    (he : e < 256) :
    u32_le_bytes (((a * 256 + b) * 256 + d) * 256 + e) = [e, d, b, a] := by
  simp only [u32_le_bytes, and255, Nat.shiftRight_eq_div_pow]
  norm_num
  refine ⟨by omega, by omega, by omega, by omega⟩

theorem to_utf8_array_one (c : Nat) (h : c < 0x80) :
    to_utf8_array c = ([c, 0, 0, 0], 1) := by
  have hlen : len_utf8 c = 1 := by unfold len_utf8; rw [if_pos h]
  simp only [to_utf8_array]
  rw [hlen, if_pos rfl]

theorem to_utf8_array_two (c : Nat) (h1 : 0x80 ≤ c) (h2 : c < 0x800) :
    to_utf8_array c = ([0xc0 + c / 64, 0x80 + c % 64, 0, 0], 2) := by
  have hlen : len_utf8 c = 2 := by
    unfold len_utf8; rw [if_neg (by omega), if_pos (by omega)]
  simp only [to_utf8_array]
  rw [hlen, if_neg (by norm_num : ¬(2 = 1))]
  simp only [and63, Nat.shiftRight_eq_div_pow, Nat.shiftLeft_eq]
  norm_num
  rw [show c / 64 % 64 = c / 64 from by omega]
  rw [orByte (c % 64) (show c / 64 < 256 from by omega)]
  rw [show c / 64 / 64 % 64 = 0 from by omega, show c / 64 / 64 / 64 % 64 = 0 from by omega]
  simp only [Nat.or_zero]
  rw [show (c % 64 * 256 + c / 64) * 256 * 256 =
        ((c % 64 * 256 + c / 64) * 256 + 0) * 256 + 0 from by ring]
  rw [or80808080 (by omega) (by omega) (by omega) (by omega)]
  rw [div65536 _ (by omega) (by omega)]
  rw [show (16320 : Nat) &&& 255 = 192 from by decide]
  rw [orLow _ (by omega) (by omega), orHdr2 (by omega)]
  rw [show not32 32 = 16777215 * 256 + 223 from by decide]
  rw [andMaskFull _ (by omega) (by omega) (by omega), andMask2 (by omega)]
  rw [show (128 + c % 64) * 256 + (192 + c / 64) =
        ((0 * 256 + 0) * 256 + (128 + c % 64)) * 256 + (192 + c / 64) from by ring]
  rw [u32_le_bytes_eq _ _ _ _ (by omega) (by omega) (by omega) (by omega)]

theorem to_utf8_array_three (c : Nat) (h1 : 0x800 ≤ c) (h2 : c < 0x10000) :
    to_utf8_array c = ([0xe0 + c / 4096, 0x80 + c / 64 % 64, 0x80 + c % 64, 0], 3) := by
  have hlen : len_utf8 c = 3 := by
    unfold len_utf8; rw [if_neg (by omega), if_neg (by omega), if_pos (by omega)]
  simp only [to_utf8_array]
  rw [hlen, if_neg (by norm_num : ¬(3 = 1))]
  simp only [and63, Nat.shiftRight_eq_div_pow, Nat.shiftLeft_eq]
  norm_num
  rw [show c / 64 / 64 % 64 = c / 4096 from by omega]
  rw [orByte (c % 64) (show c / 64 % 64 < 256 from by omega)]
  rw [orByte (c % 64 * 256 + c / 64 % 64) (show c / 4096 < 256 from by omega)]
  rw [show c / 64 / 64 / 64 % 64 = 0 from by omega]
  simp only [Nat.or_zero]
  rw [show ((c % 64 * 256 + c / 64 % 64) * 256 + c / 4096) * 256 =
        (((c % 64) * 256 + c / 64 % 64) * 256 + c / 4096) * 256 + 0 from by ring]
  rw [or80808080 (by omega) (by omega) (by omega) (by omega)]
  rw [div256 _ (by omega)]
  rw [show (8160 : Nat) &&& 255 = 224 from by decide]
  rw [orLow _ (by omega) (by omega), orHdr3 (by omega)]
  rw [show not32 16 = 16777215 * 256 + 239 from by decide]
  rw [andMaskFull _ (by omega) (by omega) (by omega), andMask3 (by omega)]
  rw [show ((128 + c % 64) * 256 + (128 + c / 64 % 64)) * 256 + (224 + c / 4096) =
        ((0 * 256 + (128 + c % 64)) * 256 + (128 + c / 64 % 64)) * 256 +
          (224 + c / 4096) from by ring]
  rw [u32_le_bytes_eq _ _ _ _ (by omega) (by omega) (by omega) (by omega)]

theorem to_utf8_array_four (c : Nat) (h1 : 0x10000 ≤ c) (h2 : c < 0x110000) :
    to_utf8_array c =
      ([0xf0 + c / 262144, 0x80 + c / 4096 % 64, 0x80 + c / 64 % 64, 0x80 + c % 64], 4) := by
  have hlen : len_utf8 c = 4 := by
    unfold len_utf8; rw [if_neg (by omega), if_neg (by omega), if_neg (by omega)]
  simp only [to_utf8_array]
  rw [hlen, if_neg (by norm_num : ¬(4 = 1))]
  simp only [and63, Nat.shiftRight_eq_div_pow, Nat.shiftLeft_eq]
  norm_num
  rw [show c / 64 / 64 % 64 = c / 4096 % 64 from by omega]
  rw [show c / 64 / 64 / 64 % 64 = c / 262144 from by omega]
  rw [orByte (c % 64) (show c / 64 % 64 < 256 from by omega)]
  rw [orByte (c % 64 * 256 + c / 64 % 64) (show c / 4096 % 64 < 256 from by omega)]
  rw [orByte ((c % 64 * 256 + c / 64 % 64) * 256 + c / 4096 % 64)
    (show c / 262144 < 256 from by omega)]
  rw [or80808080 (by omega) (by omega) (by omega) (by omega)]
  rw [show (4080 : Nat) &&& 255 = 240 from by decide]
  rw [orLow _ (by omega) (by omega), orHdr4 (by omega)]
  rw [show not32 8 = 16777215 * 256 + 247 from by decide]
  rw [andMaskFull _ (by omega) (by omega) (by omega), andMask4 (by omega)]
  rw [u32_le_bytes_eq _ _ _ _ (by omega) (by omega) (by omega) (by omega)]


/-! ## Classifier tables (exhaustive over the byte) -/

instance {α β : Type} [DecidableEq α] [DecidableEq β] : DecidableEq (Except α β) :=
  fun a b =>
    match a, b with
    | .ok x, .ok y => if h : x = y then .isTrue (by rw [h]) else .isFalse (by simp [h])
    | .error x, .error y => if h : x = y then .isTrue (by rw [h]) else .isFalse (by simp [h])
    | .ok _, .error _ => .isFalse (by simp)
    | .error _, .ok _ => .isFalse (by simp)

/-- Value table of `extra_utf8_bytes`, by exhausting the 256 byte values. -/
theorem extra_utf8_bytes_eq : ∀ b < 256,
    extra_utf8_bytes b =
      if b < 0x80 then .ok 0
      else if b < 0xc0 then .error .ContinuationByte
      else if b < 0xe0 then .ok 1
      else if b < 0xf0 then .ok 2
      else if b < 0xf8 then .ok 3
      else .error .TooLongSeqence := by
  decide

/-- Value table of `extra_utf8_bytes_unchecked`. -/
theorem extra_utf8_bytes_unchecked_eq : ∀ b < 256,
    extra_utf8_bytes_unchecked b =
      if b < 0xc0 then 0
      else if b < 0xe0 then 1
      else if b < 0xf0 then 2
      else if b < 0xf8 then 3
      else if b < 0xfc then 4
      else if b < 0xfe then 5
      else if b = 0xfe then 6
      else 7 := by
  decide

/-! ## Value of `overlong` on well-formed two-byte prefixes -/

/-- On a 2-byte lead `0xc0+x` with continuation `0x80+y`, `overlong` holds
exactly when `x = 0` (so scalars `0x40..0x7f`, with `x = 1`, slip through). -/
theorem overlong_two : ∀ x < 32, ∀ y < 64,
    overlong (0xc0 + x) (0x80 + y) = decide (x = 0) := by
  decide

/-- On a 3-byte lead `0xe0+x` with continuation `0x80+y`, `overlong` holds
exactly when the scalar is below `0x800`. -/
theorem overlong_three : ∀ x < 16, ∀ y < 64,
    overlong (0xe0 + x) (0x80 + y) = decide (x = 0 ∧ y < 32) := by
  decide

/-- On a 4-byte lead `0xf0+x` with continuation `0x80+y`, `overlong` holds
exactly when the scalar is below `0x10000`. -/
theorem overlong_four : ∀ x < 8, ∀ y < 64,
    overlong (0xf0 + x) (0x80 + y) = decide (x = 0 ∧ y < 16) := by
  decide

/-! ## Decoding the canonical encoded forms -/

theorem and1023 (x : Nat) : x &&& 1023 = x % 1024 := by
  have h := Nat.and_pow_two_sub_one_eq_mod x 10
  norm_num at h; exact h

/-- `from_utf8_exact_slice_unchecked` on a canonical 2-byte sequence. -/
theorem exact_slice_two {b d : Nat} (hb : b < 32) (hd : d < 64) :
    from_utf8_exact_slice_unchecked [192 + b, 128 + d] = b * 64 + d := by
  simp only [from_utf8_exact_slice_unchecked, List.length_cons, List.length_nil,
    List.headD, List.drop, List.foldl]
  norm_num
  rw [show (255 : Nat) >>> 3 = 31 from by decide]
  rw [andHdrInv2 hb, andCont hd, orSix b hd]

/-- `from_utf8_exact_slice_unchecked` on a canonical 3-byte sequence. -/
theorem exact_slice_three {b d e : Nat} (hb : b < 16) (hd : d < 64) (he : e < 64) :
    from_utf8_exact_slice_unchecked [224 + b, 128 + d, 128 + e] =
      (b * 64 + d) * 64 + e := by
  simp only [from_utf8_exact_slice_unchecked, List.length_cons, List.length_nil,
    List.headD, List.drop, List.foldl]
  norm_num
  rw [show (255 : Nat) >>> 4 = 15 from by decide]
  rw [andHdrInv3 hb, andCont hd, orSix b hd, andCont he, orSix (b * 64 + d) he]

/-- `from_utf8_exact_slice_unchecked` on a canonical 4-byte sequence. -/
theorem exact_slice_four {b d e f : Nat} (hb : b < 8) (hd : d < 64) (he : e < 64)
    (hf : f < 64) :
    from_utf8_exact_slice_unchecked [240 + b, 128 + d, 128 + e, 128 + f] =
      ((b * 64 + d) * 64 + e) * 64 + f := by
  simp only [from_utf8_exact_slice_unchecked, List.length_cons, List.length_nil,
    List.headD, List.drop, List.foldl]
  norm_num
  rw [show (255 : Nat) >>> 5 = 7 from by decide]
  rw [andHdrInv4 hb, andCont hd, orSix b hd, andCont he, orSix (b * 64 + d) he,
    andCont hf, orSix ((b * 64 + d) * 64 + e) hf]

/-- `from_u32_detailed` accepts every legal scalar value. -/
theorem from_u32_detailed_scalar {c : Nat} (h : isScalar c) :
    from_u32_detailed c = .ok c := by
  obtain ⟨h1, h2⟩ := h
  unfold from_u32_detailed
  rw [if_neg h2, if_neg (by omega)]


/-- UTF-16 round-trip: re-reading an encoded tuple yields the scalar back. -/
theorem from_utf16_tuple_to_utf16_tuple {c : Nat} (h : isScalar c) :
    from_utf16_tuple (to_utf16_tuple c) = .ok c := by
  obtain ⟨h1, h2⟩ := h
  unfold to_utf16_tuple
  by_cases hle : c ≤ 0xffff
  · rw [if_pos hle]
    simp only [from_utf16_tuple, from_utf16_tuple_unchecked]
    by_cases hlo : c ≤ 0xd7ff
    · rw [if_pos hlo]
    · rw [if_neg hlo, if_pos (by omega)]
  · rw [if_neg hle]
    simp only [from_utf16_tuple, from_utf16_tuple_unchecked]
    simp only [Nat.shiftRight_eq_div_pow, and1023]
    norm_num
    rw [if_pos (by omega), if_pos (by omega), orTen _ (by omega)]
    congr 1
    omega

/-- `from_utf8_slice` on a single ASCII byte. -/
theorem from_utf8_slice_ascii (c : Nat) (h : c < 0x80) :
    from_utf8_slice [c] = .ok (c, 1) := by
  have hext : extra_utf8_bytes c = .ok 0 := by
    rw [extra_utf8_bytes_eq _ (by omega), if_pos (by omega)]
  simp only [from_utf8_slice, List.head?_cons]
  rw [hext]
  rfl

/-- `from_utf8_slice` re-reads a canonical 2-byte encoding. -/
theorem from_utf8_slice_two (c : Nat) (h1 : 0x80 ≤ c) (h2 : c < 0x800) :
    from_utf8_slice [192 + c / 64, 128 + c % 64] = .ok (c, 2) := by
  have hext : extra_utf8_bytes (192 + c / 64) = .ok 1 := by
    rw [extra_utf8_bytes_eq _ (by omega), if_neg (by omega), if_neg (by omega),
      if_pos (by omega)]
  have hov : overlong (192 + c / 64) (128 + c % 64) = false := by
    rw [overlong_two (c / 64) (by omega) (c % 64) (by omega)]
    exact decide_eq_false (by omega)
  simp only [from_utf8_slice, List.head?_cons]
  rw [hext]
  simp only [List.length_cons, List.length_nil, List.take, List.drop, List.getD_cons_zero,
    List.getD_cons_succ, findNonCont]
  norm_num
  rw [if_neg (by omega), hov]
  norm_num
  rw [exact_slice_two (by omega) (by omega),
    show c / 64 * 64 + c % 64 = c from by omega,
    from_u32_detailed_scalar ⟨by omega, by omega⟩]

/-- `from_utf8_slice` re-reads a canonical 3-byte encoding. -/
theorem from_utf8_slice_three (c : Nat) (h1 : 0x800 ≤ c) (h2 : c < 0x10000)
    (hs : ¬(0xd800 ≤ c ∧ c ≤ 0xdfff)) :
    from_utf8_slice [224 + c / 4096, 128 + c / 64 % 64, 128 + c % 64] = .ok (c, 3) := by
  have hext : extra_utf8_bytes (224 + c / 4096) = .ok 2 := by
    rw [extra_utf8_bytes_eq _ (by omega), if_neg (by omega), if_neg (by omega),
      if_neg (by omega), if_pos (by omega)]
  have hov : overlong (224 + c / 4096) (128 + c / 64 % 64) = false := by
    rw [overlong_three (c / 4096) (by omega) (c / 64 % 64) (by omega)]
    exact decide_eq_false (by omega)
  simp only [from_utf8_slice, List.head?_cons]
  rw [hext]
  simp only [List.length_cons, List.length_nil, List.take, List.drop, List.getD_cons_zero,
    List.getD_cons_succ, findNonCont]
  norm_num
  rw [if_neg (by omega), if_neg (by omega), hov]
  norm_num
  rw [exact_slice_three (by omega) (by omega) (by omega),
    show (c / 4096 * 64 + c / 64 % 64) * 64 + c % 64 = c from by omega,
    from_u32_detailed_scalar ⟨by omega, hs⟩]

/-- `from_utf8_slice` re-reads a canonical 4-byte encoding. -/
theorem from_utf8_slice_four (c : Nat) (h1 : 0x10000 ≤ c) (h2 : c < 0x110000) :
    from_utf8_slice [240 + c / 262144, 128 + c / 4096 % 64, 128 + c / 64 % 64, 128 + c % 64] =
      .ok (c, 4) := by
  have hext : extra_utf8_bytes (240 + c / 262144) = .ok 3 := by
    rw [extra_utf8_bytes_eq _ (by omega), if_neg (by omega), if_neg (by omega),
      if_neg (by omega), if_neg (by omega), if_pos (by omega)]
  have hov : overlong (240 + c / 262144) (128 + c / 4096 % 64) = false := by
    rw [overlong_four (c / 262144) (by omega) (c / 4096 % 64) (by omega)]
    exact decide_eq_false (by omega)
  simp only [from_utf8_slice, List.head?_cons]
  rw [hext]
  simp only [List.length_cons, List.length_nil, List.take, List.drop, List.getD_cons_zero,
    List.getD_cons_succ, findNonCont]
  norm_num
  rw [if_neg (by omega), if_neg (by omega), if_neg (by omega), hov]
  norm_num
  rw [exact_slice_four (by omega) (by omega) (by omega) (by omega),
    show ((c / 262144 * 64 + c / 4096 % 64) * 64 + c / 64 % 64) * 64 + c % 64 = c from by omega,
    from_u32_detailed_scalar ⟨by omega, by omega⟩]

/-- C1: for every Unicode scalar value `c`, decoding the first `len` bytes of
`char::to_utf8_array(c)` with `char::from_utf8_slice` returns `Ok((c, len))`,
and `char::from_utf16_tuple(char::to_utf16_tuple(c))` returns `Ok(c)`. -/
theorem c1_roundtrip (c : Nat) (h : isScalar c) :
    from_utf8_slice ((to_utf8_array c).1.take (to_utf8_array c).2) =
      .ok (c, (to_utf8_array c).2) ∧
    from_utf16_tuple (to_utf16_tuple c) = .ok c := by
  refine ⟨?_, from_utf16_tuple_to_utf16_tuple h⟩
  obtain ⟨h1, h2⟩ := h
  by_cases ha : c < 0x80
  · rw [to_utf8_array_one c ha]
    show from_utf8_slice [c] = Except.ok (c, 1)
    exact from_utf8_slice_ascii c ha
  by_cases hb : c < 0x800
  · rw [to_utf8_array_two c (by omega) hb]
    show from_utf8_slice [192 + c / 64, 128 + c % 64] = Except.ok (c, 2)
    exact from_utf8_slice_two c (by omega) hb
  by_cases hc : c < 0x10000
  · rw [to_utf8_array_three c (by omega) hc]
    show from_utf8_slice [224 + c / 4096, 128 + c / 64 % 64, 128 + c % 64] = Except.ok (c, 3)
    exact from_utf8_slice_three c (by omega) hc h2
  · rw [to_utf8_array_four c (by omega) (by omega)]
    show from_utf8_slice
      [240 + c / 262144, 128 + c / 4096 % 64, 128 + c / 64 % 64, 128 + c % 64] =
        Except.ok (c, 4)
    exact from_utf8_slice_four c (by omega) (by omega)

/-- Witness for C1 at the scalar U+1F600. -/
theorem c1_roundtrip_witness :
    isScalar 0x1f600 ∧
    (from_utf8_slice ((to_utf8_array 0x1f600).1.take (to_utf8_array 0x1f600).2) =
        .ok (0x1f600, (to_utf8_array 0x1f600).2) ∧
      from_utf16_tuple (to_utf16_tuple 0x1f600) = .ok 0x1f600) :=
  ⟨by decide, c1_roundtrip 0x1f600 (by decide)⟩

/-- C4: `from_u32_detailed` returns `Utf16Reserved` on the surrogate range,
`TooHigh` above `0x10ffff`, and succeeds on every other `u32`. -/
theorem c4_from_u32_detailed (raw : Nat) (h : raw < 0x100000000) :
    (0xd800 ≤ raw ∧ raw ≤ 0xdfff → from_u32_detailed raw = .error .Utf16Reserved) ∧
    (0x10ffff < raw → from_u32_detailed raw = .error .TooHigh) ∧
    (raw ≤ 0x10ffff → ¬(0xd800 ≤ raw ∧ raw ≤ 0xdfff) → from_u32_detailed raw = .ok raw) := by
  refine ⟨fun hs => ?_, fun hh => ?_, fun hl hns => ?_⟩ <;> unfold from_u32_detailed
  · rw [if_pos hs]
  · rw [if_neg (by omega), if_pos (by omega)]
  · rw [if_neg hns, if_neg (by omega)]

/-- Witness for C4 at `raw = 0xd800`. -/
theorem c4_from_u32_detailed_witness :
    (0xd800 : Nat) < 0x100000000 ∧
    ((0xd800 ≤ (0xd800 : Nat) ∧ (0xd800 : Nat) ≤ 0xdfff →
        from_u32_detailed 0xd800 = .error .Utf16Reserved) ∧
      (0x10ffff < (0xd800 : Nat) → from_u32_detailed 0xd800 = .error .TooHigh) ∧
      ((0xd800 : Nat) ≤ 0x10ffff → ¬(0xd800 ≤ (0xd800 : Nat) ∧ (0xd800 : Nat) ≤ 0xdfff) →
        from_u32_detailed 0xd800 = .ok 0xd800)) :=
  ⟨by decide, c4_from_u32_detailed 0xd800 (by decide)⟩

/-- C2 (code bug): the overlong two-byte sequence `0xC1 0x80` encodes scalar
`0x40`, whose minimal UTF-8 length is one byte, yet both decoders accept it
instead of rejecting it with `OverLong`. -/
theorem c2_overlong_accepted :
    from_utf8_slice [0xc1, 0x80] = .ok (0x40, 2) ∧
    from_utf8_array [0xc1, 0x80, 0, 0] = .ok 0x40 ∧
    len_utf8 0x40 = 1 := by decide

/-- C3 (code bug): `from_utf8_slice` succeeds on `[0xC1, 0x80]`, but
re-encoding the decoded scalar `0x40` gives the single byte `[0x40]`, not the
two consumed bytes. -/
theorem c3_reencode_mismatch :
    from_utf8_slice [0xc1, 0x80] = .ok (0x40, 2) ∧
    (to_utf8_array 0x40).1.take (to_utf8_array 0x40).2 = [0x40] ∧
    ([0x40] : List Nat) ≠ [0xc1, 0x80] := by decide

/-- C5 (code bug): the valid pair decodes, and the slice form fails as the
claim says, but `from_utf16_tuple (0xD83D, None)` reaches the source's
`unreachable!()` arm (a panic) instead of `MissingSecond`, and
`from_utf16_tuple (0xDC00, None)` reports `MissingSecond` instead of
`FirstIsTrailingSurrogate`. -/
theorem c5_utf16_decode_errors :
    from_utf16_tuple (0xd83d, some 0xde00) = .ok 0x1f600 ∧
    from_utf16_tuple (0xd83d, none) = .unreachableReached ∧
    from_utf16_tuple (0xdc00, none) = .err .MissingSecond ∧
    from_utf16_slice [0xd83d] = .error .MissingSecond ∧
    from_utf16_slice [0xdc00] = .error .FirstLowSurrogate ∧
    from_utf16_tuple (0xd83d, some 0x41) = .err .InvalidSecond ∧
    from_utf16_slice [0xd83d, 0x41] = .error .SecondNotLowSurrogate := by decide

/-- C8 (code bug): `from_slice_start` and `from_array` accept the overlong
sequence `0xC1 0x80`, producing a `Utf8Char` whose two stored bytes decode to
scalar `0x40`, which needs only one byte: the minimality invariant fails. -/
theorem c8_invariant_violated :
    Utf8Char.from_slice_start [0xc1, 0x80] = .ok (⟨[0xc1, 0x80, 0, 0]⟩, 2) ∧
    Utf8Char.from_array [0xc1, 0x80, 0, 0] = .ok ⟨[0xc1, 0x80, 0, 0]⟩ ∧
    (Utf8Char.mk [0xc1, 0x80, 0, 0]).len = 2 ∧
    Utf8Char.to_char ⟨[0xc1, 0x80, 0, 0]⟩ = 0x40 ∧
    len_utf8 0x40 = 1 := by decide

/-- C7 counterexample: on `[0xC3]` exactly one more byte is still needed, but
the error reports 2 (the total sequence length), not 1. -/
theorem c7_counterexample :
    from_utf8_slice [0xc3] = .error (.TooShort 2) ∧ (2 : Nat) ≠ 2 - 1 := by decide

/-- C7 amended: when the slice is shorter than the `1 + extra` bytes its first
byte declares, the `TooShort` error reports the total number of bytes the
sequence needs, `extra + 1`, not the number still missing. -/
theorem c7_too_short_reports_total (src : List Nat) (first extra : Nat)
    (hhead : src.head? = some first)
    (hextra : extra_utf8_bytes first = .ok extra) (h0 : 0 < extra)
    (hlen : src.length ≤ extra) :
    from_utf8_slice src = .error (.TooShort (extra + 1)) := by
  simp only [from_utf8_slice, hhead, hextra]
  rw [if_neg (by omega), if_pos hlen]

/-- Witness for the amended C7 at `[0xE2, 0x82]` (a 3-byte lead plus one
continuation byte: one byte missing, error reports 3). -/
theorem c7_too_short_reports_total_witness :
    ([0xe2, 0x82] : List Nat).head? = some 0xe2 ∧
    extra_utf8_bytes 0xe2 = .ok 2 ∧ 0 < 2 ∧ ([0xe2, 0x82] : List Nat).length ≤ 2 ∧
    from_utf8_slice [0xe2, 0x82] = .error (.TooShort 3) :=
  ⟨by decide, by decide, by decide, by decide,
    c7_too_short_reports_total [0xe2, 0x82] 0xe2 2 (by decide) (by decide) (by decide)
      (by decide)⟩

/-! ## C6: array/tuple forms against slice forms -/

/-- The `InvalidUtf8Array` result corresponding to a slice-decode result:
identical error payloads, with `TooShort` having no counterpart (a 4-byte
array is never too short). -/
def sliceResultToArrayResult :
    Except InvalidUtf8Slice (Nat × Nat) → Option (Except InvalidUtf8Array Nat)
  | .ok (c, _) => some (.ok c)
  | .error (.TooShort _) => none
  | .error (.Utf8 e) => some (.error (.Utf8 e))
  | .error (.CodePoint e) => some (.error (.CodePoint e))

/-- The `Utf16TupleResult` corresponding to a UTF-16 slice-decode result. -/
def sliceResultToTupleResult :
    Except InvalidUtf16Slice (Nat × Nat) → Option Utf16TupleResult
  | .ok (c, _) => some (.ok c)
  | .error .EmptySlice => none
  | .error .SecondNotLowSurrogate => some (.err .InvalidSecond)
  | .error .MissingSecond => some (.err .MissingSecond)
  | .error .FirstLowSurrogate => some (.err .FirstIsTrailingSurrogate)

theorem c6_utf8_agree (a b d e : Nat) (ha : a < 256) :
    some (from_utf8_array [a, b, d, e]) =
      sliceResultToArrayResult (from_utf8_slice [a, b, d, e]) := by
  have htab := extra_utf8_bytes_eq a ha
  rcases Nat.lt_or_ge a 128 with h1 | h1
  · rw [if_pos h1] at htab
    simp only [from_utf8_slice, from_utf8_array, List.head?_cons, List.getD_cons_zero, htab]
    rfl
  rcases Nat.lt_or_ge a 192 with h2 | h2
  · rw [if_neg (by omega), if_pos h2] at htab
    simp only [from_utf8_slice, from_utf8_array, List.head?_cons, List.getD_cons_zero, htab]
    rfl
  rcases Nat.lt_or_ge a 224 with h3 | h3
  · rw [if_neg (by omega), if_neg (by omega), if_pos h3] at htab
    simp only [from_utf8_slice, from_utf8_array, List.head?_cons, List.getD_cons_zero,
      List.getD_cons_succ, htab]
    norm_num [List.take, List.drop, findNonCont]
    by_cases hcb : b < 128 ∨ 191 < b
    · rw [if_pos hcb]
      rfl
    · rw [if_neg hcb]
      cases ho : overlong a b
      · norm_num
        cases hcp : from_u32_detailed (from_utf8_exact_slice_unchecked [a, b]) <;> rfl
      · rfl
  rcases Nat.lt_or_ge a 240 with h4 | h4
  · rw [if_neg (by omega), if_neg (by omega), if_neg (by omega), if_pos h4] at htab
    simp only [from_utf8_slice, from_utf8_array, List.head?_cons, List.getD_cons_zero,
      List.getD_cons_succ, htab]
    norm_num [List.take, List.drop, findNonCont]
    by_cases hcb : b < 128 ∨ 191 < b
    · rw [if_pos hcb]
      rfl
    · rw [if_neg hcb]
      by_cases hcd : d < 128 ∨ 191 < d
      · rw [if_pos hcd]
        rfl
      · rw [if_neg hcd]
        cases ho : overlong a b
        · norm_num
          cases hcp : from_u32_detailed (from_utf8_exact_slice_unchecked [a, b, d]) <;> rfl
        · rfl
  rcases Nat.lt_or_ge a 248 with h5 | h5
  · rw [if_neg (by omega), if_neg (by omega), if_neg (by omega), if_neg (by omega),
      if_pos h5] at htab
    simp only [from_utf8_slice, from_utf8_array, List.head?_cons, List.getD_cons_zero,
      List.getD_cons_succ, htab]
    norm_num [List.take, List.drop, findNonCont]
    by_cases hcb : b < 128 ∨ 191 < b
    · rw [if_pos hcb]
      rfl
    · rw [if_neg hcb]
      by_cases hcd : d < 128 ∨ 191 < d
      · rw [if_pos hcd]
        rfl
      · rw [if_neg hcd]
        by_cases hce : e < 128 ∨ 191 < e
        · rw [if_pos hce]
          rfl
        · rw [if_neg hce]
          cases ho : overlong a b
          · norm_num
            cases hcp : from_u32_detailed (from_utf8_exact_slice_unchecked [a, b, d, e]) <;>
              rfl
          · rfl
  · rw [if_neg (by omega), if_neg (by omega), if_neg (by omega), if_neg (by omega),
      if_neg (by omega)] at htab
    simp only [from_utf8_slice, from_utf8_array, List.head?_cons, List.getD_cons_zero, htab]
    rfl

theorem c6_utf16_agree_sur (u v : Nat) (hs1 : 0xd800 ≤ u) (hs2 : u ≤ 0xdfff) :
    some (from_utf16_tuple (u, some v)) =
      sliceResultToTupleResult (from_utf16_slice [u, v]) := by
  have hget : ([u, v] : List Nat)[1]? = some v := rfl
  rcases Nat.lt_or_ge u 0xdc00 with hu | hu
  · have hne : utf16_needs_extra_unit u = some true := by
      unfold utf16_needs_extra_unit
      rw [if_neg (by omega), if_pos (by omega)]
    simp only [from_utf16_slice, from_utf16_tuple, List.head?_cons, hne, hget]
    rw [if_pos (show 0xd800 ≤ u ∧ u ≤ 0xdbff from by omega)]
    by_cases hv : 0xdc00 ≤ v ∧ v ≤ 0xdfff
    · rw [if_pos hv, if_pos hv]
      rfl
    · rw [if_neg hv, if_neg hv]
      rfl
  · have hne : utf16_needs_extra_unit u = none := by
      unfold utf16_needs_extra_unit
      rw [if_pos (by omega)]
    simp only [from_utf16_slice, from_utf16_tuple, List.head?_cons, hne, hget]
    rw [if_neg (by omega), if_pos (show 0xdc00 ≤ u ∧ u ≤ 0xdfff from by omega)]
    rfl

theorem c6_utf16_nonsur (u v : Nat) (hn : u < 0xd800 ∨ 0xdfff < u) :
    from_utf16_tuple (u, some v) = .err .SuperfluousSecond ∧
    from_utf16_slice [u, v] = .ok (u, 1) := by
  have hne : utf16_needs_extra_unit u = some false := by
    unfold utf16_needs_extra_unit
    rw [if_neg (by omega), if_neg (by omega)]
  constructor
  · simp only [from_utf16_tuple]
    rw [if_neg (by omega), if_neg (by omega)]
  · simp only [from_utf16_slice, List.head?_cons, hne]
    rfl

/-! ## C9: derived Eq/Ord/Hash of `Utf8Char` against the decoded scalar -/

theorem bytes_one (c : Nat) (h : c < 0x80) : (to_utf8_array c).1 = [c, 0, 0, 0] := by
  rw [to_utf8_array_one c h]

theorem bytes_two (c : Nat) (h1 : 0x80 ≤ c) (h2 : c < 0x800) :
    (to_utf8_array c).1 = [0xc0 + c / 64, 0x80 + c % 64, 0, 0] := by
  rw [to_utf8_array_two c h1 h2]

theorem bytes_three (c : Nat) (h1 : 0x800 ≤ c) (h2 : c < 0x10000) :
    (to_utf8_array c).1 = [0xe0 + c / 4096, 0x80 + c / 64 % 64, 0x80 + c % 64, 0] := by
  rw [to_utf8_array_three c h1 h2]

theorem bytes_four (c : Nat) (h1 : 0x10000 ≤ c) (h2 : c < 0x110000) :
    (to_utf8_array c).1 =
      [0xf0 + c / 262144, 0x80 + c / 4096 % 64, 0x80 + c / 64 % 64, 0x80 + c % 64] := by
  rw [to_utf8_array_four c h1 h2]

theorem cmpBytes_cons_lt {x y : Nat} (h : x < y) (xs ys : List Nat) :
    cmpBytes (x :: xs) (y :: ys) = .lt := by
  simp only [cmpBytes, Nat.compare_eq_lt.mpr h]

theorem cmpBytes_cons_self (x : Nat) (xs ys : List Nat) :
    cmpBytes (x :: xs) (x :: ys) = cmpBytes xs ys := by
  simp only [cmpBytes, Nat.compare_eq_eq.mpr rfl]

theorem cmpBytes_self (xs : List Nat) : cmpBytes xs xs = .eq := by
  induction xs with
  | nil => rfl
  | cons x xs ih => rw [cmpBytes_cons_self]; exact ih

theorem cmpBytes_cons_gt {x y : Nat} (h : y < x) (xs ys : List Nat) :
    cmpBytes (x :: xs) (y :: ys) = .gt := by
  simp only [cmpBytes, Nat.compare_eq_gt.mpr h]

theorem cmpBytes_swap (xs ys : List Nat) : (cmpBytes xs ys).swap = cmpBytes ys xs := by
  induction xs generalizing ys with
  | nil => cases ys <;> rfl
  | cons x xs ih =>
    cases ys with
    | nil => rfl
    | cons y ys =>
      rcases Nat.lt_trichotomy x y with h | h | h
      · rw [cmpBytes_cons_lt h, cmpBytes_cons_gt h]; rfl
      · subst h
        rw [cmpBytes_cons_self, cmpBytes_cons_self]
        exact ih ys
      · rw [cmpBytes_cons_gt h, cmpBytes_cons_lt h]; rfl

/-- Byte-wise comparison of the encodings is strict on the scalar order. -/
theorem cmpBytes_encode_lt {a b : Nat} (hb : b < 0x110000) (hab : a < b) :
    cmpBytes (to_utf8_array a).1 (to_utf8_array b).1 = .lt := by
  rcases Nat.lt_or_ge a 0x80 with ha1 | ha1
  · rw [bytes_one a ha1]
    rcases Nat.lt_or_ge b 0x80 with hb1 | hb1
    · rw [bytes_one b hb1]; exact cmpBytes_cons_lt hab _ _
    rcases Nat.lt_or_ge b 0x800 with hb2 | hb2
    · rw [bytes_two b hb1 hb2]; exact cmpBytes_cons_lt (by omega) _ _
    rcases Nat.lt_or_ge b 0x10000 with hb3 | hb3
    · rw [bytes_three b hb2 hb3]; exact cmpBytes_cons_lt (by omega) _ _
    · rw [bytes_four b hb3 hb]; exact cmpBytes_cons_lt (by omega) _ _
  rcases Nat.lt_or_ge a 0x800 with ha2 | ha2
  · rw [bytes_two a ha1 ha2]
    rcases Nat.lt_or_ge b 0x800 with hb2 | hb2
    · rw [bytes_two b (by omega) hb2]
      rcases Nat.lt_or_ge (a / 64) (b / 64) with hd | hd
      · exact cmpBytes_cons_lt (by omega) _ _
      have hde : a / 64 = b / 64 := by omega
      rw [hde, cmpBytes_cons_self]
      exact cmpBytes_cons_lt (by omega) _ _
    rcases Nat.lt_or_ge b 0x10000 with hb3 | hb3
    · rw [bytes_three b hb2 hb3]; exact cmpBytes_cons_lt (by omega) _ _
    · rw [bytes_four b hb3 hb]; exact cmpBytes_cons_lt (by omega) _ _
  rcases Nat.lt_or_ge a 0x10000 with ha3 | ha3
  · rw [bytes_three a ha2 ha3]
    rcases Nat.lt_or_ge b 0x10000 with hb3 | hb3
    · rw [bytes_three b (by omega) hb3]
      rcases Nat.lt_or_ge (a / 4096) (b / 4096) with hd | hd
      · exact cmpBytes_cons_lt (by omega) _ _
      have hde : a / 4096 = b / 4096 := by omega
      rw [hde, cmpBytes_cons_self]
      rcases Nat.lt_or_ge (a / 64 % 64) (b / 64 % 64) with he | he
      · exact cmpBytes_cons_lt (by omega) _ _
      have hee : a / 64 % 64 = b / 64 % 64 := by omega
      rw [hee, cmpBytes_cons_self]
      exact cmpBytes_cons_lt (by omega) _ _
    · rw [bytes_four b hb3 hb]; exact cmpBytes_cons_lt (by omega) _ _
  · rw [bytes_four a ha3 (by omega), bytes_four b (by omega) hb]
    rcases Nat.lt_or_ge (a / 262144) (b / 262144) with hd | hd
    · exact cmpBytes_cons_lt (by omega) _ _
    have hde : a / 262144 = b / 262144 := by omega
    rw [hde, cmpBytes_cons_self]
    rcases Nat.lt_or_ge (a / 4096 % 64) (b / 4096 % 64) with he | he
    · exact cmpBytes_cons_lt (by omega) _ _
    have hee : a / 4096 % 64 = b / 4096 % 64 := by omega
    rw [hee, cmpBytes_cons_self]
    rcases Nat.lt_or_ge (a / 64 % 64) (b / 64 % 64) with hf | hf
    · exact cmpBytes_cons_lt (by omega) _ _
    have hfe : a / 64 % 64 = b / 64 % 64 := by omega
    rw [hfe, cmpBytes_cons_self]
    exact cmpBytes_cons_lt (by omega) _ _

/-- `Utf8Char::len` of an encoded char equals the scalar's UTF-8 length. -/
theorem fromChar_len (c : Nat) (h : c < 0x110000) :
    (Utf8Char.fromChar c).len = len_utf8 c := by
  have hlen : (Utf8Char.fromChar c).len
      = extra_utf8_bytes_unchecked ((to_utf8_array c).1.getD 0 0) + 1 := rfl
  rw [hlen]
  rcases Nat.lt_or_ge c 0x80 with h1 | h1
  · rw [bytes_one c h1]
    simp only [List.getD_cons_zero]
    rw [extra_utf8_bytes_unchecked_eq c (by omega), if_pos (by omega)]
    unfold len_utf8
    rw [if_pos h1]
  rcases Nat.lt_or_ge c 0x800 with h2 | h2
  · rw [bytes_two c h1 h2]
    simp only [List.getD_cons_zero]
    rw [extra_utf8_bytes_unchecked_eq _ (by omega), if_neg (by omega), if_pos (by omega)]
    unfold len_utf8
    rw [if_neg (by omega), if_pos h2]
  rcases Nat.lt_or_ge c 0x10000 with h3 | h3
  · rw [bytes_three c h2 h3]
    simp only [List.getD_cons_zero]
    rw [extra_utf8_bytes_unchecked_eq _ (by omega), if_neg (by omega), if_neg (by omega),
      if_pos (by omega)]
    unfold len_utf8
    rw [if_neg (by omega), if_neg (by omega), if_pos h3]
  · rw [bytes_four c h3 h]
    simp only [List.getD_cons_zero]
    rw [extra_utf8_bytes_unchecked_eq _ (by omega), if_neg (by omega), if_neg (by omega),
      if_neg (by omega), if_pos (by omega)]
    unfold len_utf8
    rw [if_neg (by omega), if_neg (by omega), if_neg (by omega)]

/-- Decoding an encoded `Utf8Char` (the `From<Utf8Char> for char` direction)
restores the scalar. -/
theorem to_char_fromChar (c : Nat) (h : isScalar c) :
    Utf8Char.to_char (Utf8Char.fromChar c) = c := by
  obtain ⟨hlt, hsur⟩ := h
  have hbys : (Utf8Char.fromChar c).bytes = (to_utf8_array c).1 := rfl
  unfold Utf8Char.to_char
  rw [hbys, fromChar_len c hlt]
  rcases Nat.lt_or_ge c 0x80 with h1 | h1
  · rw [bytes_one c h1, show len_utf8 c = 1 from by unfold len_utf8; rw [if_pos h1]]
    rfl
  rcases Nat.lt_or_ge c 0x800 with h2 | h2
  · rw [bytes_two c h1 h2,
      show len_utf8 c = 2 from by unfold len_utf8; rw [if_neg (by omega), if_pos h2]]
    show from_utf8_exact_slice_unchecked [192 + c / 64, 128 + c % 64] = c
    rw [exact_slice_two (by omega) (by omega)]
    omega
  rcases Nat.lt_or_ge c 0x10000 with h3 | h3
  · rw [bytes_three c h2 h3,
      show len_utf8 c = 3 from by
        unfold len_utf8; rw [if_neg (by omega), if_neg (by omega), if_pos h3]]
    show from_utf8_exact_slice_unchecked [224 + c / 4096, 128 + c / 64 % 64, 128 + c % 64] = c
    rw [exact_slice_three (by omega) (by omega) (by omega)]
    omega
  · rw [bytes_four c h3 hlt,
      show len_utf8 c = 4 from by
        unfold len_utf8; rw [if_neg (by omega), if_neg (by omega), if_neg (by omega)]]
    show from_utf8_exact_slice_unchecked
      [240 + c / 262144, 128 + c / 4096 % 64, 128 + c / 64 % 64, 128 + c % 64] = c
    rw [exact_slice_four (by omega) (by omega) (by omega) (by omega)]
    omega

/-- C9: for `Utf8Char`s built from chars `a` and `b`, the derived equality
holds iff `a = b`, the byte-wise order of the 4-byte arrays equals the order
of `a` and `b`, and the value hashed is the decoded char itself. -/
theorem c9_eq_ord_hash (a b : Nat) (ha : isScalar a) (hb : isScalar b) :
    (Utf8Char.fromChar a = Utf8Char.fromChar b ↔ a = b) ∧
    cmpBytes (Utf8Char.fromChar a).bytes (Utf8Char.fromChar b).bytes = compare a b ∧
    Utf8Char.hashFeed (Utf8Char.fromChar a) = a ∧
    Utf8Char.hashFeed (Utf8Char.fromChar b) = b := by
  have rta : Utf8Char.hashFeed (Utf8Char.fromChar a) = a := to_char_fromChar a ha
  have rtb : Utf8Char.hashFeed (Utf8Char.fromChar b) = b := to_char_fromChar b hb
  have hba : (Utf8Char.fromChar a).bytes = (to_utf8_array a).1 := rfl
  have hbb : (Utf8Char.fromChar b).bytes = (to_utf8_array b).1 := rfl
  refine ⟨⟨fun hEq => by rw [← rta, ← rtb, hEq], fun hEq => by rw [hEq]⟩, ?_, rta, rtb⟩
  rw [hba, hbb]
  rcases Nat.lt_trichotomy a b with hlt | hEq | hgt
  · rw [Nat.compare_eq_lt.mpr hlt]
    exact cmpBytes_encode_lt hb.1 hlt
  · rw [hEq, show compare b b = Ordering.eq from Nat.compare_eq_eq.mpr rfl]
    exact cmpBytes_self _
  · rw [show compare a b = Ordering.gt from Nat.compare_eq_gt.mpr hgt,
      ← cmpBytes_swap ((to_utf8_array b).1) ((to_utf8_array a).1),
      cmpBytes_encode_lt ha.1 hgt]
    rfl

/-- Witness for C9 at the chars `A` (U+0041) and U+1F600. -/
theorem c9_eq_ord_hash_witness :
    isScalar 0x41 ∧ isScalar 0x1f600 ∧
    ((Utf8Char.fromChar 0x41 = Utf8Char.fromChar 0x1f600 ↔ (0x41 : Nat) = 0x1f600) ∧
      cmpBytes (Utf8Char.fromChar 0x41).bytes (Utf8Char.fromChar 0x1f600).bytes =
        compare (0x41 : Nat) 0x1f600 ∧
      Utf8Char.hashFeed (Utf8Char.fromChar 0x41) = 0x41 ∧
      Utf8Char.hashFeed (Utf8Char.fromChar 0x1f600) = 0x1f600) :=
  ⟨by decide, by decide, c9_eq_ord_hash 0x41 0x1f600 (by decide) (by decide)⟩

/-- C6 counterexample: for the non-surrogate pair `(0x41, Some 0x42)` the
tuple form fails with `SuperfluousSecond` while the slice form succeeds with
`Ok((0x41, 1))`, so the already-split forms do not agree with the slice forms
on every input. -/
theorem c6_counterexample :
    from_utf16_slice [0x41, 0x42] = .ok (0x41, 1) ∧
    from_utf16_tuple (0x41, some 0x42) = .err .SuperfluousSecond := by decide

/-- C6 (amended): `from_utf8_array` agrees with `from_utf8_slice` on every
4-byte array (same char on success, corresponding error on failure, and the
slice form never reports `TooShort` there); `from_utf16_tuple (u, Some v)`
agrees with `from_utf16_slice [u, v]` whenever `u` is a surrogate, while for
a non-surrogate `u` the tuple form fails with `SuperfluousSecond` but the
slice form succeeds consuming one unit. -/
theorem c6_split_vs_slice (a b d e u v u2 v2 : Nat) (ha : a < 256)
    (hs1 : 0xd800 ≤ u) (hs2 : u ≤ 0xdfff) (hn : u2 < 0xd800 ∨ 0xdfff < u2) :
    (some (from_utf8_array [a, b, d, e]) =
      sliceResultToArrayResult (from_utf8_slice [a, b, d, e])) ∧
    (some (from_utf16_tuple (u, some v)) =
      sliceResultToTupleResult (from_utf16_slice [u, v])) ∧
    (from_utf16_tuple (u2, some v2) = .err .SuperfluousSecond ∧
      from_utf16_slice [u2, v2] = .ok (u2, 1)) :=
  ⟨c6_utf8_agree a b d e ha, c6_utf16_agree_sur u v hs1 hs2, c6_utf16_nonsur u2 v2 hn⟩

/-- Witness for the amended C6: a valid 4-byte array, a valid surrogate pair,
and a non-surrogate first unit. -/
theorem c6_split_vs_slice_witness :
    (240 : Nat) < 256 ∧ (0xd800 : Nat) ≤ 0xd83d ∧ (0xd83d : Nat) ≤ 0xdfff ∧
    ((0x41 : Nat) < 0xd800 ∨ (0xdfff : Nat) < 0x41) ∧
    ((some (from_utf8_array [240, 159, 152, 128]) =
        sliceResultToArrayResult (from_utf8_slice [240, 159, 152, 128])) ∧
      (some (from_utf16_tuple (0xd83d, some 0xde00)) =
        sliceResultToTupleResult (from_utf16_slice [0xd83d, 0xde00])) ∧
      (from_utf16_tuple (0x41, some 0x42) = .err .SuperfluousSecond ∧
        from_utf16_slice [0x41, 0x42] = .ok (0x41, 1))) :=
  ⟨by decide, by decide, by decide, by decide,
    c6_split_vs_slice 240 159 152 128 0xd83d 0xde00 0x41 0x42 (by decide) (by decide)
      (by decide) (by decide)⟩

/-! ## C10: buffer-copy operations -/

/-- Rust std `char::len_utf16`: the number of units `to_utf16_tuple` yields. -/
def len_utf16 (c : Nat) : Nat := if c ≤ 0xffff then 1 else 2

theorem fromChar_bytes_length (c : Nat) (h : c < 0x110000) :
    (Utf8Char.fromChar c).bytes.length = 4 := by
  have hbys : (Utf8Char.fromChar c).bytes = (to_utf8_array c).1 := rfl
  rw [hbys]
  rcases Nat.lt_or_ge c 0x80 with h1 | h1
  · rw [bytes_one c h1]; rfl
  rcases Nat.lt_or_ge c 0x800 with h2 | h2
  · rw [bytes_two c h1 h2]; rfl
  rcases Nat.lt_or_ge c 0x10000 with h3 | h3
  · rw [bytes_three c h2 h3]; rfl
  · rw [bytes_four c h3 h]; rfl

/-- C10 counterexample: copying `Utf8Char('A')` (one encoded byte) into a
3-byte buffer returns `Some 1` but also overwrites positions 1 and 2 with the
zero padding, so positions at and beyond the returned count are modified. -/
theorem c10_counterexample :
    Utf8Char.to_slice (Utf8Char.fromChar 0x41) [9, 9, 9] = (some 1, [0x41, 0, 0]) ∧
    List.getD [0x41, 0, 0] 1 0 ≠ List.getD [9, 9, 9] 1 0 := by decide

/-- C10 (amended): both copy operations fail with `None` and leave the buffer
unmodified when it is shorter than the encoding, and a maximum-size buffer
always succeeds.  On success `to_utf16_slice` writes exactly the returned
count of leading units; `Utf8Char::to_slice` however copies
`min (dst.length) 4` bytes (the encoding plus its zero padding), so only
positions at and beyond index 4 are guaranteed unchanged. -/
theorem c10_to_slice_frame (c : Nat) (h : isScalar c) (dst dst16 : List Nat) :
    (dst.length < len_utf8 c →
      Utf8Char.to_slice (Utf8Char.fromChar c) dst = (none, dst)) ∧
    (len_utf8 c ≤ dst.length →
      (Utf8Char.to_slice (Utf8Char.fromChar c) dst).1 = some (len_utf8 c) ∧
      ((Utf8Char.to_slice (Utf8Char.fromChar c) dst).2).length = dst.length ∧
      (∀ i, 4 ≤ i →
        ((Utf8Char.to_slice (Utf8Char.fromChar c) dst).2).getD i 0 = dst.getD i 0)) ∧
    (dst.length = 4 →
      (Utf8Char.to_slice (Utf8Char.fromChar c) dst).1 = some (len_utf8 c)) ∧
    (dst16.length < len_utf16 c → to_utf16_slice c dst16 = (none, dst16)) ∧
    (len_utf16 c ≤ dst16.length →
      (to_utf16_slice c dst16).1 = some (len_utf16 c) ∧
      ((to_utf16_slice c dst16).2).length = dst16.length ∧
      (∀ i, len_utf16 c ≤ i →
        ((to_utf16_slice c dst16).2).getD i 0 = dst16.getD i 0)) ∧
    (dst16.length = 2 → (to_utf16_slice c dst16).1 = some (len_utf16 c)) := by
  have hlen4 : len_utf8 c ≤ 4 := by unfold len_utf8; split_ifs <;> omega
  have hsucc : len_utf8 c ≤ dst.length →
      (Utf8Char.to_slice (Utf8Char.fromChar c) dst).1 = some (len_utf8 c) ∧
      ((Utf8Char.to_slice (Utf8Char.fromChar c) dst).2).length = dst.length ∧
      (∀ i, 4 ≤ i →
        ((Utf8Char.to_slice (Utf8Char.fromChar c) dst).2).getD i 0 = dst.getD i 0) := by
    intro hge
    unfold Utf8Char.to_slice
    rw [fromChar_len c h.1, if_pos hge, fromChar_bytes_length c h.1]
    refine ⟨rfl, ?_, ?_⟩
    · simp only [List.length_append, List.length_take, List.length_drop,
        fromChar_bytes_length c h.1]
      omega
    · intro i hi
      simp only [List.getD_eq_getElem?_getD]
      rw [List.getElem?_append_right
          (by rw [List.length_take, fromChar_bytes_length c h.1]; omega)]
      rw [List.getElem?_drop]
      congr 2
      rw [List.length_take, fromChar_bytes_length c h.1]
      omega
  have hft_small : c ≤ 0xffff → to_utf16_tuple c = (c, none) := fun hle => by
    unfold to_utf16_tuple; rw [if_pos hle]
  have hft_big : ¬c ≤ 0xffff → to_utf16_tuple c =
      (0xd800 + (c - 0x10000) / 1024, some (0xdc00 + (c - 0x10000) % 1024)) := fun hle => by
    unfold to_utf16_tuple
    rw [if_neg hle]
    simp only [Nat.shiftRight_eq_div_pow, and1023]
  have h16succ : len_utf16 c ≤ dst16.length →
      (to_utf16_slice c dst16).1 = some (len_utf16 c) ∧
      ((to_utf16_slice c dst16).2).length = dst16.length ∧
      (∀ i, len_utf16 c ≤ i →
        ((to_utf16_slice c dst16).2).getD i 0 = dst16.getD i 0) := by
    intro hge
    by_cases hle : c ≤ 0xffff
    · have hu1 : len_utf16 c = 1 := by unfold len_utf16; rw [if_pos hle]
      rw [hu1] at hge ⊢
      rcases dst16 with _ | ⟨x, _ | ⟨y, rest⟩⟩
      · simp at hge
      · have hval : to_utf16_slice c [x] = (some 1, [c]) := by
          unfold to_utf16_slice
          rw [hft_small hle]
          rfl
        rw [hval]
        refine ⟨rfl, by simp, ?_⟩
        intro i hi
        obtain ⟨j, rfl⟩ : ∃ j, i = j + 1 := ⟨i - 1, by omega⟩
        simp [List.getD]
      · have hval : to_utf16_slice c (x :: y :: rest) = (some 1, c :: y :: rest) := by
          unfold to_utf16_slice
          rw [hft_small hle]
          rfl
        rw [hval]
        refine ⟨rfl, by simp, ?_⟩
        intro i hi
        obtain ⟨j, rfl⟩ : ∃ j, i = j + 1 := ⟨i - 1, by omega⟩
        simp only [List.getD_cons_succ]
    · have hu2 : len_utf16 c = 2 := by unfold len_utf16; rw [if_neg hle]
      rw [hu2] at hge ⊢
      rcases dst16 with _ | ⟨x, _ | ⟨y, rest⟩⟩
      · simp at hge
      · simp at hge
      · have hval : to_utf16_slice c (x :: y :: rest) =
            (some 2,
              (0xd800 + (c - 0x10000) / 1024) :: (0xdc00 + (c - 0x10000) % 1024) :: rest) := by
          unfold to_utf16_slice
          rw [hft_big hle]
          rfl
        rw [hval]
        refine ⟨rfl, by simp, ?_⟩
        intro i hi
        obtain ⟨j, rfl⟩ : ∃ j, i = j + 2 := ⟨i - 2, by omega⟩
        simp only [List.getD_cons_succ]
  refine ⟨?_, hsucc, fun _ => (hsucc (by omega)).1, ?_, h16succ, ?_⟩
  · intro hlt
    unfold Utf8Char.to_slice
    rw [fromChar_len c h.1, if_neg (by omega)]
  · intro hlt
    by_cases hle : c ≤ 0xffff
    · have h0 : dst16.length = 0 := by
        unfold len_utf16 at hlt; rw [if_pos hle] at hlt; omega
      rcases dst16 with _ | ⟨x, rest⟩
      · unfold to_utf16_slice
        rw [hft_small hle]
        rfl
      · simp at h0
    · have h1 : dst16.length ≤ 1 := by
        unfold len_utf16 at hlt; rw [if_neg hle] at hlt; omega
      rcases dst16 with _ | ⟨x, _ | ⟨y, rest⟩⟩
      · unfold to_utf16_slice
        rw [hft_big hle]
        rfl
      · unfold to_utf16_slice
        rw [hft_big hle]
        rfl
      · simp [List.length_cons] at h1
  · intro h2len
    refine (h16succ ?_).1
    rw [h2len]
    unfold len_utf16
    split_ifs <;> omega

/-- Witness for the amended C10 at scalar `0x10000`, a 3-byte UTF-8 buffer
(too small) and a 2-unit UTF-16 buffer (always large enough). -/
theorem c10_to_slice_frame_witness :
    isScalar 0x10000 ∧
    ((([9, 9, 9] : List Nat).length < len_utf8 0x10000 →
        Utf8Char.to_slice (Utf8Char.fromChar 0x10000) [9, 9, 9] = (none, [9, 9, 9])) ∧
      (len_utf8 0x10000 ≤ ([9, 9, 9] : List Nat).length →
        (Utf8Char.to_slice (Utf8Char.fromChar 0x10000) [9, 9, 9]).1 = some (len_utf8 0x10000) ∧
        ((Utf8Char.to_slice (Utf8Char.fromChar 0x10000) [9, 9, 9]).2).length =
          ([9, 9, 9] : List Nat).length ∧
        (∀ i, 4 ≤ i →
          ((Utf8Char.to_slice (Utf8Char.fromChar 0x10000) [9, 9, 9]).2).getD i 0 =
            ([9, 9, 9] : List Nat).getD i 0)) ∧
      (([9, 9, 9] : List Nat).length = 4 →
        (Utf8Char.to_slice (Utf8Char.fromChar 0x10000) [9, 9, 9]).1 =
          some (len_utf8 0x10000)) ∧
      (([7, 7] : List Nat).length < len_utf16 0x10000 →
        to_utf16_slice 0x10000 [7, 7] = (none, [7, 7])) ∧
      (len_utf16 0x10000 ≤ ([7, 7] : List Nat).length →
        (to_utf16_slice 0x10000 [7, 7]).1 = some (len_utf16 0x10000) ∧
        ((to_utf16_slice 0x10000 [7, 7]).2).length = ([7, 7] : List Nat).length ∧
        (∀ i, len_utf16 0x10000 ≤ i →
          ((to_utf16_slice 0x10000 [7, 7]).2).getD i 0 = ([7, 7] : List Nat).getD i 0)) ∧
      (([7, 7] : List Nat).length = 2 →
        (to_utf16_slice 0x10000 [7, 7]).1 = some (len_utf16 0x10000))) :=
  ⟨by decide, c10_to_slice_frame 0x10000 (by decide) [9, 9, 9] [7, 7]⟩

end EncodeUnicode
